import Mathlib

/-!
Shallow embedding of the core of the investment-dashboard repository:
the time-series resampler and statistics summarizer of `src/lib/price.ts`,
the currency-aware screening-grid evaluator `screenStocks` of
`src/lib/yahooFinanceApi.ts` (the currency-aware revision), and the
`evaluateLongTermSuitability` / `evaluateTenbaggerPotential` classifiers of
the prices route handler.

Conventions of the embedding:
* JavaScript numbers are modelled as exact rationals (`ℚ`); the score
  accumulator of the composite engine only ever adds integer literals and is
  modelled as `ℤ`.
* Calendar dates (`"YYYY-MM-DD"` strings parsed by `parseDate`) are modelled
  as year/month/day triples; `Date.getTime()` ordering and the day arithmetic
  of `getWeekKey` are modelled through a day count (`Date.dayNumber`).  The
  runtime clock is modelled at UTC, so a local midnight and the ISO instant
  printed by `toISOString()` denote the same calendar day.
* A week key (the `"YYYY-MM-DD"` string of a Monday) is represented by the
  day number of that Monday, and a month key (`"YYYY-MM"`) by the
  `(year, month)` pair; both representations are injective images of the
  strings produced by the source.
* JavaScript `Map` grouping is insertion-ordered; it is modelled by
  `insertGroup` / `groupByKey` below, which append new keys at the end and
  push values at the end of an existing group.
* The rating glyphs `◎ 〇 △ ×` are kept as the string values the source uses.
-/

/-- Calendar date, the parse of a `"YYYY-MM-DD"` string (`parseDate` in
`src/lib/price.ts`). -/
structure Date where
  year : Nat
  month : Nat
  day : Nat
deriving DecidableEq, Repr

/-- Day count of a calendar date (days since 0000-03-01, Gregorian,
via the standard civil-from-days formula).  It is strictly monotone in the
calendar date, so it models the ordering of `parseDate(...).getTime()`, and
day 719468 is 1970-01-01 (a Thursday), which fixes the weekday arithmetic. -/
def Date.dayNumber (dt : Date) : Nat :=
  let y := if dt.month ≤ 2 then dt.year - 1 else dt.year
  let m := if dt.month ≤ 2 then dt.month + 9 else dt.month - 3
  365 * y + y / 4 + y / 400 + (153 * m + 2) / 5 + dt.day - (y / 100 + 1)

/-- JavaScript `getDay()` as a function of the day number:
0 = Sunday, 1 = Monday, …, 6 = Saturday. -/
def jsDayOfNumber (n : Nat) : Nat := (n + 3) % 7

/-- JavaScript `d.getDay()` for a parsed date. -/
def Date.jsDay (dt : Date) : Nat := jsDayOfNumber dt.dayNumber

/-- Week key of `getWeekKey` (price.ts): the source computes
`diff = (day + 6) % 7` and moves the date back by `diff` days, returning the
ISO string of that Monday; here the key is the Monday's day number. -/
def getWeekKey (dt : Date) : Nat := dt.dayNumber - (dt.jsDay + 6) % 7

/-- Month key of `getMonthKey` (price.ts): the `(year, month)` pair rendered
as `"YYYY-MM"` by the source. -/
def getMonthKey (dt : Date) : Nat × Nat := (dt.year, dt.month)

/-- A dated price point (`Price` in `src/lib/price.ts`); `date` is the parsed
calendar date. -/
structure Price where
  symbol : String
  price : ℚ
  date : Date
deriving DecidableEq, Repr

/-- One step of the JavaScript `Map` grouping loop: push `p` onto the group
keyed `k`, creating the group at the end when the key is new (insertion
order of `Map` keys). -/
def insertGroup {K : Type} [DecidableEq K] (k : K) (p : Price) :
    List (K × List Price) → List (K × List Price)
  | [] => [(k, [p])]
  | (k', g) :: rest =>
      if k' = k then (k', g ++ [p]) :: rest else (k', g) :: insertGroup k p rest

/-- The grouping loop shared by `toWeekly` and `toMonthly`: fold the input,
pushing every point onto the group of its key. -/
def groupByKey {K : Type} [DecidableEq K] (key : Price → K) (ps : List Price) :
    List (K × List Price) :=
  ps.foldl (fun acc p => insertGroup (key p) p acc) []

/-- Sort a bucket by ascending date — the comparator
`parseDate(a.date).getTime() - parseDate(b.date).getTime()` (stable, as
JavaScript `Array.prototype.sort` is). -/
def sortByDate (g : List Price) : List Price :=
  g.mergeSort (fun a b => a.date.dayNumber ≤ b.date.dayNumber)

/-- `toWeekly` (price.ts): group by week key, then take `sorted[length - 1]`
of each group.  Groups of the grouping loop are never empty, so the
`getLast?` here always fires. -/
def toWeekly (ps : List Price) : List Price :=
  (groupByKey (fun p => getWeekKey p.date) ps).filterMap
    (fun kg => (sortByDate kg.2).getLast?)

/-- `toMonthly` (price.ts): group by month key, then take
`sorted[length - 1]` of each group. -/
def toMonthly (ps : List Price) : List Price :=
  (groupByKey (fun p => getMonthKey p.date) ps).filterMap
    (fun kg => (sortByDate kg.2).getLast?)

/-- Result record of `calculateStats` (price.ts). -/
structure Stats where
  maxPrice : ℚ
  maxPriceDate : Date
  minPrice : ℚ
  minPriceDate : Date
  priceRange : ℚ
  priceRangePercent : ℚ
deriving DecidableEq, Repr

/-- `calculateStats` (price.ts): `null` (here `none`) on empty input;
otherwise `Math.max`/`Math.min` over the prices, the two `reduce` scans that
keep the first point strictly exceeding the accumulator, and the range
figures. -/
def calculateStats (ps : List Price) : Option Stats :=
  match ps with
  | [] => none
  | p0 :: rest =>
      let maxPrice := rest.foldl (fun m p => max m p.price) p0.price
      let minPrice := rest.foldl (fun m p => min m p.price) p0.price
      let priceRange := maxPrice - minPrice
      let priceRangePercent := priceRange / maxPrice * 100
      let maxPriceItem :=
        rest.foldl (fun acc cur => if cur.price > acc.price then cur else acc) p0
      let minPriceItem :=
        rest.foldl (fun acc cur => if cur.price < acc.price then cur else acc) p0
      some { maxPrice := maxPrice
             maxPriceDate := maxPriceItem.date
             minPrice := minPrice
             minPriceDate := minPriceItem.date
             priceRange := priceRange
             priceRangePercent := priceRangePercent }

/-- The two report currencies. -/
inductive Currency
  | USD
  | JPY
deriving DecidableEq, Repr

/-- `StockStats` (yahooFinanceApi.ts): the fundamentals snapshot; every
numeric field defaults to 0 upstream when the provider omits it. -/
structure StockStats where
  symbol : String
  returnOnEquity : ℚ
  marketCap : ℚ
  revenue : ℚ
  totalCash : ℚ
  operatingCashflow : ℚ
  per : ℚ
  pbr : ℚ
  roa : ℚ
  equityRatio : ℚ
  eps : ℚ
  fiftyTwoWeekLow : ℚ
  fiftyTwoWeekHigh : ℚ
  revenueGrowth : ℚ
  earningsGrowth : ℚ
deriving DecidableEq, Repr

/-- JavaScript `x || 0` on a number: 0 (falsy) maps to 0, everything else to
itself — the identity on exact rationals, kept for fidelity to the source. -/
def orZero (x : ℚ) : ℚ := if x = 0 then 0 else x

/-- The four-tier conditional chain `e ? "◎" : g ? "〇" : f ? "△" : "×"`
used by every factor of `screenStocks`. -/
def fourTier (e g f : Prop) [Decidable e] [Decidable g] [Decidable f] : String :=
  if e then "◎" else if g then "〇" else if f then "△" else "×"

/-- Market-cap rating of `screenStocks` (currency-aware revision): oku
(`1e8` yen) bands for JPY, billion-dollar bands for USD. -/
def marketCapRating (stat : StockStats) (currency : Currency) : String :=
  if currency = Currency.JPY then
    let marketCapInOku := stat.marketCap / 100000000
    fourTier (5000 ≤ marketCapInOku ∧ marketCapInOku ≤ 50000)
      (1000 ≤ marketCapInOku ∧ marketCapInOku ≤ 150000)
      (500 ≤ marketCapInOku ∧ marketCapInOku ≤ 1000)
  else
    let marketCapInBillion := stat.marketCap / 1000000000
    fourTier (50 ≤ marketCapInBillion ∧ marketCapInBillion ≤ 500)
      (10 ≤ marketCapInBillion ∧ marketCapInBillion ≤ 1000)
      (5 ≤ marketCapInBillion ∧ marketCapInBillion ≤ 10)

/-- ROE rating: `(stat.returnOnEquity || 0) * 100`, tiers 15/10/5. -/
def roeRating (stat : StockStats) : String :=
  let roe := orZero stat.returnOnEquity * 100
  fourTier (roe ≥ 15) (roe ≥ 10) (roe ≥ 5)

/-- PSR rating: `stat.revenue > 0 ? stat.marketCap / stat.revenue : 0`,
tiers `< 1` / `< 2` / `< 3`. -/
def psrRating (stat : StockStats) : String :=
  let psr := if stat.revenue > 0 then stat.marketCap / stat.revenue else 0
  fourTier (psr < 1) (psr < 2) (psr < 3)

/-- Cash-richness rating: `totalCash / marketCap * 100` (0 when marketCap is
not positive), tiers `> 50` / `> 20` / `> 10`. -/
def cashRichRating (stat : StockStats) : String :=
  let cashRich :=
    if stat.marketCap > 0 then stat.totalCash / stat.marketCap * 100 else 0
  fourTier (cashRich > 50) (cashRich > 20) (cashRich > 10)

/-- Operating-cash-flow rating: `operatingCashflow / marketCap * 100`
(0 when marketCap is not positive), tiers `> 0` / `> -10` / `> -20`. -/
def positiveCFRating (stat : StockStats) : String :=
  let positiveCF :=
    if stat.marketCap > 0 then stat.operatingCashflow / stat.marketCap * 100 else 0
  fourTier (positiveCF > 0) (positiveCF > -10) (positiveCF > -20)

/-- PER rating: `per > 0 && per <= 15` / `<= 20` / `<= 30`. -/
def perRating (stat : StockStats) : String :=
  let per := orZero stat.per
  fourTier (per > 0 ∧ per ≤ 15) (per ≤ 20) (per ≤ 30)

/-- PBR rating: `< 1` / `< 2` / `< 3`. -/
def pbrRating (stat : StockStats) : String :=
  let pbr := orZero stat.pbr
  fourTier (pbr < 1) (pbr < 2) (pbr < 3)

/-- ROA rating: `(stat.roa || 0) * 100`, tiers 8/5/3. -/
def roaRating (stat : StockStats) : String :=
  let roa := orZero stat.roa * 100
  fourTier (roa ≥ 8) (roa ≥ 5) (roa ≥ 3)

/-- Equity-ratio rating: tiers 60/40/20. -/
def equityRatioRating (stat : StockStats) : String :=
  let equityRatio := orZero stat.equityRatio
  fourTier (equityRatio ≥ 60) (equityRatio ≥ 40) (equityRatio ≥ 20)

/-- EPS rating, currency-aware: 100/50/10 yen or 1/0.5/0.1 dollars. -/
def epsRating (stat : StockStats) (currency : Currency) : String :=
  let eps := orZero stat.eps
  if currency = Currency.JPY then
    fourTier (eps ≥ 100) (eps ≥ 50) (eps ≥ 10)
  else
    fourTier (eps ≥ 1) (eps ≥ (0.5 : ℚ)) (eps ≥ (0.1 : ℚ))

/-- `ScreeningResult` as returned by `screenStocks`: the ten factor ratings
of the declared interface plus the `symbol` the revised source also copies
into the returned object. -/
structure ScreeningResult where
  symbol : String
  marketCap : String
  roe : String
  psr : String
  cashRich : String
  positiveCF : String
  per : String
  pbr : String
  roa : String
  equityRatio : String
  eps : String
deriving DecidableEq, Repr

/-- Body of the `stats.map` inside the currency-aware `screenStocks`. -/
def screenStock (stat : StockStats) (currency : Currency) : ScreeningResult :=
  { symbol := stat.symbol
    marketCap := marketCapRating stat currency
    roe := roeRating stat
    psr := psrRating stat
    cashRich := cashRichRating stat
    positiveCF := positiveCFRating stat
    per := perRating stat
    pbr := pbrRating stat
    roa := roaRating stat
    equityRatio := equityRatioRating stat
    eps := epsRating stat currency }

/-- `screenStocks` (currency-aware revision): map the per-snapshot evaluator
over the list. -/
def screenStocks (stats : List StockStats) (currency : Currency) :
    List ScreeningResult :=
  stats.map (fun stat => screenStock stat currency)

/-- The factor-name → rating record the route handler builds from a
`ScreeningResult` (`screeningResults` in the prices route): exactly the ten
factor keys of the declared interface, in source order. -/
def screeningRecord (r : ScreeningResult) : List (String × String) :=
  [("marketCap", r.marketCap), ("roe", r.roe), ("psr", r.psr),
   ("cashRich", r.cashRich), ("positiveCF", r.positiveCF), ("per", r.per),
   ("pbr", r.pbr), ("roa", r.roa), ("equityRatio", r.equityRatio),
   ("eps", r.eps)]

/-- `evaluateLongTermSuitability` (prices route): count ◎ and ◎/〇 and △
over `Object.values`, hard-fail when `positiveCF` or `equityRatio` is `×`,
then the threshold chain. -/
def evaluateLongTermSuitability (screeningResults : List (String × String)) :
    String :=
  let values := screeningResults.map Prod.snd
  let excellentCount := (values.filter (fun v => v == "◎")).length
  let goodOrBetterCount := (values.filter (fun v => v == "◎" || v == "〇")).length
  let normalCount := (values.filter (fun v => v == "△")).length
  let criticalItems := ["positiveCF", "equityRatio"]
  let hasCriticalFailure :=
    criticalItems.any (fun key => screeningResults.lookup key == some "×")
  if hasCriticalFailure then "×"
  else if goodOrBetterCount ≥ 5 ∧ excellentCount ≥ 2 then "◎"
  else if goodOrBetterCount ≥ 3 ∨ normalCount ≥ 4 then "〇"
  else "△"

/-- Revenue-growth figures handed to the composite engine
(`{ cagr, recentGrowth }`, both in percent). -/
structure RevenueGrowthInfo where
  cagr : ℚ
  recentGrowth : ℚ
deriving DecidableEq, Repr

/-- The `priceStats` window of `evaluateTenbaggerPotential`. -/
structure PriceStatsWindow where
  minPrice : ℚ
  maxPrice : ℚ
  currentPrice : ℚ
deriving DecidableEq, Repr

/-- The `actualValues` record the route handler builds and passes to the
composite engine (all figures already in percent or raw units). -/
structure ActualValues where
  roe : ℚ
  psr : ℚ
  cashRich : ℚ
  positiveCF : ℚ
  per : ℚ
  pbr : ℚ
  roa : ℚ
  equityRatio : ℚ
  eps : ℚ
  marketCap : ℚ
deriving DecidableEq, Repr

/-- The sub-factor a rationale string of the composite engine talks about.
`missingGrowth` is the single `× 売上成長率: データなし` entry pushed when no
revenue-growth data is available. -/
inductive SubFactor
  | revenueCAGR
  | recentGrowth
  | missingGrowth
  | marketCapSize
  | pricePosition
  | roeProfit
  | cfMarginProfit
  | perValuation
deriving DecidableEq, Repr

/-- One `details.push(...)` of `evaluateTenbaggerPotential`: the tier glyph
the template string starts with, the sub-factor it reports, and the metric
value the source interpolates (`cagr`, `oku`, `oku/10000`, `billion`,
`priceMultiple`, `roe`, `cfMargin` or `per`, before `toFixed` rendering). -/
structure Detail where
  tag : String
  factor : SubFactor
  value : ℚ
deriving DecidableEq, Repr

/-- Return shape of `evaluateTenbaggerPotential`. -/
structure TenbaggerResult where
  rating : String
  score : ℤ
  details : List Detail
deriving DecidableEq, Repr

/-- CAGR component of `evaluateTenbaggerPotential` (price.ts revision):
tiers ≥35 / ≥25 / ≥15 / ≥8, worth 30/22/12/4, else 1. -/
def cagrBlock (cagr : ℚ) : ℤ × List Detail :=
  if cagr ≥ 35 then (30, [⟨"✅", SubFactor.revenueCAGR, cagr⟩])
  else if cagr ≥ 25 then (22, [⟨"✅", SubFactor.revenueCAGR, cagr⟩])
  else if cagr ≥ 15 then (12, [⟨"〇", SubFactor.revenueCAGR, cagr⟩])
  else if cagr ≥ 8 then (4, [⟨"△", SubFactor.revenueCAGR, cagr⟩])
  else (1, [⟨"×", SubFactor.revenueCAGR, cagr⟩])

/-- Recent-growth acceleration component: compared against the CAGR trend,
worth +10 / +5 / 0 / −10. -/
def recentBlock (cagr recent : ℚ) : ℤ × List Detail :=
  if recent ≥ cagr + 10 then (10, [⟨"✅", SubFactor.recentGrowth, recent⟩])
  else if recent ≥ cagr then (5, [⟨"〇", SubFactor.recentGrowth, recent⟩])
  else if recent ≥ cagr - 15 then (0, [⟨"△", SubFactor.recentGrowth, recent⟩])
  else (-10, [⟨"×", SubFactor.recentGrowth, recent⟩])

/-- Revenue-growth bucket: both components when data is present, a single
missing-data entry (and no points) otherwise. -/
def growthBlock (revenueGrowth : Option RevenueGrowthInfo) : ℤ × List Detail :=
  match revenueGrowth with
  | some g =>
      ((cagrBlock g.cagr).1 + (recentBlock g.cagr g.recentGrowth).1,
       (cagrBlock g.cagr).2 ++ (recentBlock g.cagr g.recentGrowth).2)
  | none => (0, [⟨"×", SubFactor.missingGrowth, 0⟩])

/-- Market-capitalization sweet-spot bucket, currency-conditional: oku bands
for JP (the 〇/△/× branches render in 兆, i.e. push `oku/10000`), billion
bands for US. -/
def marketCapBlock (marketCap : ℚ) (isJP : Bool) : ℤ × List Detail :=
  if isJP then
    let oku := marketCap / 100000000
    if oku ≥ 100 ∧ oku ≤ 3000 then (20, [⟨"✅", SubFactor.marketCapSize, oku⟩])
    else if oku ≥ 3000 ∧ oku ≤ 10000 then
      (15, [⟨"〇", SubFactor.marketCapSize, oku / 10000⟩])
    else if oku ≥ 10000 ∧ oku ≤ 50000 then
      (8, [⟨"△", SubFactor.marketCapSize, oku / 10000⟩])
    else if oku > 50000 then (-8, [⟨"×", SubFactor.marketCapSize, oku / 10000⟩])
    else (-3, [⟨"△", SubFactor.marketCapSize, oku⟩])
  else
    let billion := marketCap / 1000000000
    if billion ≥ (0.1 : ℚ) ∧ billion ≤ 15 then
      (20, [⟨"✅", SubFactor.marketCapSize, billion⟩])
    else if billion ≥ 15 ∧ billion ≤ 200 then
      (15, [⟨"〇", SubFactor.marketCapSize, billion⟩])
    else if billion ≥ 200 ∧ billion ≤ 1000 then
      (8, [⟨"△", SubFactor.marketCapSize, billion⟩])
    else if billion > 1000 then (-12, [⟨"×", SubFactor.marketCapSize, billion⟩])
    else (-3, [⟨"△", SubFactor.marketCapSize, billion⟩])

/-- Price-position bucket: `currentPrice / minPrice` multiples of the 52-week
low, worth +15 / +10 / +5 / −2. -/
def priceBlock (priceStats : PriceStatsWindow) : ℤ × List Detail :=
  let priceMultiple := priceStats.currentPrice / priceStats.minPrice
  if priceMultiple < (1.8 : ℚ) then
    (15, [⟨"✅", SubFactor.pricePosition, priceMultiple⟩])
  else if priceMultiple < 3 then
    (10, [⟨"〇", SubFactor.pricePosition, priceMultiple⟩])
  else if priceMultiple < 5 then
    (5, [⟨"△", SubFactor.pricePosition, priceMultiple⟩])
  else (-2, [⟨"×", SubFactor.pricePosition, priceMultiple⟩])

/-- ROE profitability bucket: ≥20 / ≥15 / ≥10 / ≥0 worth 10/7/4/1, and a
deliberate 0 (not a penalty) for negative ROE. -/
def roeBlock (roe : ℚ) : ℤ × List Detail :=
  if roe ≥ 20 then (10, [⟨"✅", SubFactor.roeProfit, roe⟩])
  else if roe ≥ 15 then (7, [⟨"〇", SubFactor.roeProfit, roe⟩])
  else if roe ≥ 10 then (4, [⟨"△", SubFactor.roeProfit, roe⟩])
  else if roe ≥ 0 then (1, [⟨"△", SubFactor.roeProfit, roe⟩])
  else (0, [⟨"△", SubFactor.roeProfit, roe⟩])

/-- Operating-cash-flow-margin bonus: +5 with a rationale entry at ≥15, a
silent +3 at ≥5 and +1 at ≥0 (the source pushes no string there), else 0. -/
def cfBlock (cfMargin : ℚ) : ℤ × List Detail :=
  if cfMargin ≥ 15 then (5, [⟨"✅", SubFactor.cfMarginProfit, cfMargin⟩])
  else if cfMargin ≥ 5 then (3, [])
  else if cfMargin ≥ 0 then (1, [])
  else (0, [])

/-- PER valuation bucket: `0 < per ≤ 25` / ≤50 / ≤100 / ≤200 worth
10/5/2/−2, else −5. -/
def perBlock (per : ℚ) : ℤ × List Detail :=
  if per > 0 ∧ per ≤ 25 then (10, [⟨"✅", SubFactor.perValuation, per⟩])
  else if per ≤ 50 then (5, [⟨"〇", SubFactor.perValuation, per⟩])
  else if per ≤ 100 then (2, [⟨"△", SubFactor.perValuation, per⟩])
  else if per ≤ 200 then (-2, [⟨"△", SubFactor.perValuation, per⟩])
  else (-5, [⟨"×", SubFactor.perValuation, per⟩])

/-- `evaluateTenbaggerPotential` (price.ts revision): the running `score`
and ordered `details` accumulation, block by block in source order, then the
≥60 / ≥40 / ≥25 rating chain.  The `screeningResults` parameter is unused by
the source body and kept for signature fidelity. -/
def evaluateTenbaggerPotential (actualValues : ActualValues)
    (screeningResults : List (String × String))
    (revenueGrowth : Option RevenueGrowthInfo) (isJP : Bool)
    (priceStats : PriceStatsWindow) : TenbaggerResult :=
  let g := growthBlock revenueGrowth
  let m := marketCapBlock actualValues.marketCap isJP
  let pp := priceBlock priceStats
  let r := roeBlock actualValues.roe
  let cf := cfBlock actualValues.positiveCF
  let pe := perBlock actualValues.per
  let score := g.1 + m.1 + pp.1 + r.1 + cf.1 + pe.1
  let details := g.2 ++ m.2 ++ pp.2 ++ r.2 ++ cf.2 ++ pe.2
  let rating :=
    if score ≥ 60 then "◎"
    else if score ≥ 40 then "〇"
    else if score ≥ 25 then "△"
    else "×"
  { rating := rating, score := score, details := details }

/-- Screening grid used to witness the hard-fail rule: every factor excellent
except the operating-cash-flow factor. -/
def hardFailGrid : ScreeningResult :=
  { symbol := "TEST", marketCap := "◎", roe := "◎", psr := "◎", cashRich := "◎",
    positiveCF := "×", per := "◎", pbr := "◎", roa := "◎", equityRatio := "◎",
    eps := "◎" }

/-- The fundamentals snapshot of the spec scenario (§8): ROE 20 %, market cap
30 G$, revenue 20 G$, cash 15 G$, operating CF 2 G$, PER 18, PBR 4, ROA 9 %,
equity ratio 55, EPS 2.1. -/
def scenarioStats : StockStats :=
  { symbol := "TEST", returnOnEquity := 0.20, marketCap := 30000000000,
    revenue := 20000000000, totalCash := 15000000000,
    operatingCashflow := 2000000000, per := 18, pbr := 4, roa := 0.09,
    equityRatio := 55, eps := 2.1, fiftyTwoWeekLow := 0, fiftyTwoWeekHigh := 0,
    revenueGrowth := 0, earningsGrowth := 0 }

/-- The scenario snapshot with `revenue` zeroed out, witnessing the PSR
division guard. -/
def zeroRevenueStats : StockStats :=
  { scenarioStats with revenue := 0 }

/-- An all-zero snapshot used to witness screening totality. -/
def totalityStats : StockStats :=
  { symbol := "ZERO", returnOnEquity := 0, marketCap := 0, revenue := 0,
    totalCash := 0, operatingCashflow := 0, per := 0, pbr := 0, roa := 0,
    equityRatio := 0, eps := 0, fiftyTwoWeekLow := 0, fiftyTwoWeekHigh := 0,
    revenueGrowth := 0, earningsGrowth := 0 }

/-- Composite-engine input on which every bucket lands in a penalty branch
(missing growth data, 2 T$ mega-cap, price at 10 times the low, negative ROE,
negative CF margin, PER 300). -/
def lowScoreValues : ActualValues :=
  { roe := -5, psr := 0, cashRich := 0, positiveCF := -5, per := 300, pbr := 0,
    roa := 0, equityRatio := 0, eps := 0, marketCap := 2000000000000 }

def lowScoreWindow : PriceStatsWindow :=
  { minPrice := 1, maxPrice := 10, currentPrice := 10 }

/-- Composite-engine input whose operating-cash-flow margin (0) is below the
top tier, so the source pushes no CF-margin rationale string. -/
def lowCfValues : ActualValues :=
  { roe := 20, psr := 0, cashRich := 0, positiveCF := 0, per := 20, pbr := 0,
    roa := 0, equityRatio := 0, eps := 0, marketCap := 1000000000 }

def lowCfWindow : PriceStatsWindow :=
  { minPrice := 1, maxPrice := 10, currentPrice := 1 }

/-- Composite-engine input used to witness the rationale-structure theorem. -/
def rationaleValues : ActualValues :=
  { roe := 0, psr := 0, cashRich := 0, positiveCF := 20, per := 10, pbr := 0,
    roa := 0, equityRatio := 0, eps := 0, marketCap := 0 }

/-- Price window used to witness the rationale-structure theorem. -/
def rationaleWindow : PriceStatsWindow :=
  { minPrice := 1, maxPrice := 2, currentPrice := 1 }

/-- Price point used to witness the statistics summary. -/
def statsPoint : Price :=
  { symbol := "AAPL", price := 10, date := { year := 2024, month := 1, day := 1 } }

lemma fourTier_mem (e g f : Prop) [Decidable e] [Decidable g] [Decidable f] :
    fourTier e g f = "◎" ∨ fourTier e g f = "〇" ∨ fourTier e g f = "△" ∨
      fourTier e g f = "×" := by
  unfold fourTier
  split_ifs with h1 h2 h3
  · exact Or.inl rfl
  · exact Or.inr (Or.inl rfl)
  · exact Or.inr (Or.inr (Or.inl rfl))
  · exact Or.inr (Or.inr (Or.inr rfl))

lemma marketCapRating_mem (stat : StockStats) (c : Currency) :
    marketCapRating stat c = "◎" ∨ marketCapRating stat c = "〇" ∨
      marketCapRating stat c = "△" ∨ marketCapRating stat c = "×" := by
  unfold marketCapRating
  split <;> exact fourTier_mem _ _ _

lemma epsRating_mem (stat : StockStats) (c : Currency) :
    epsRating stat c = "◎" ∨ epsRating stat c = "〇" ∨
      epsRating stat c = "△" ∨ epsRating stat c = "×" := by
  unfold epsRating
  split <;> exact fourTier_mem _ _ _

/-- Claim C1 (screening totality): for every fundamentals snapshot and either
currency, the screening evaluator's factor record carries exactly the ten
fixed factor keys, in order, and every value is one of the four tiers
◎, 〇, △, ×. -/
theorem screening_totality (stat : StockStats) (c : Currency) :
    (screeningRecord (screenStock stat c)).map Prod.fst =
      ["marketCap", "roe", "psr", "cashRich", "positiveCF", "per", "pbr",
       "roa", "equityRatio", "eps"]
    ∧ ∀ pr ∈ screeningRecord (screenStock stat c),
        pr.2 = "◎" ∨ pr.2 = "〇" ∨ pr.2 = "△" ∨ pr.2 = "×" := by
  refine ⟨rfl, ?_⟩
  intro pr hpr
  simp only [screeningRecord, screenStock, List.mem_cons, List.not_mem_nil,
    or_false] at hpr
  rcases hpr with rfl | rfl | rfl | rfl | rfl | rfl | rfl | rfl | rfl | rfl
  · exact marketCapRating_mem stat c
  · exact fourTier_mem _ _ _
  · exact fourTier_mem _ _ _
  · exact fourTier_mem _ _ _
  · exact fourTier_mem _ _ _
  · exact fourTier_mem _ _ _
  · exact fourTier_mem _ _ _
  · exact fourTier_mem _ _ _
  · exact fourTier_mem _ _ _
  · exact epsRating_mem stat c

/-- Claim C2 (hard-fail short circuit): whenever the `positiveCF` factor or
the `equityRatio` factor of a screening grid is rated ×, the long-term
suitability classifier returns ×, whatever the other factors are. -/
theorem longterm_hard_fail (r : ScreeningResult)
    (h : r.positiveCF = "×" ∨ r.equityRatio = "×") :
    evaluateLongTermSuitability (screeningRecord r) = "×" := by
  have hpcf : (screeningRecord r).lookup "positiveCF" = some r.positiveCF := rfl
  have heq : (screeningRecord r).lookup "equityRatio" = some r.equityRatio := rfl
  unfold evaluateLongTermSuitability
  have hc : (["positiveCF", "equityRatio"].any
      (fun key => (screeningRecord r).lookup key == some "×")) = true := by
    rcases h with h | h <;>
      simp [List.any_cons, hpcf, heq, h]
  simp [hc]

/-- Witness for claim C2: a grid that is all-excellent apart from a ×
`positiveCF` factor is classified ×. -/
theorem longterm_hard_fail_witness :
    (hardFailGrid.positiveCF = "×" ∨ hardFailGrid.equityRatio = "×") ∧
      evaluateLongTermSuitability (screeningRecord hardFailGrid) = "×" :=
  ⟨Or.inl rfl, longterm_hard_fail hardFailGrid (Or.inl rfl)⟩

/-- Counterexample for claim C7: on the spec scenario snapshot the code rates
`cashRich` 〇, not ◎ — `totalCash / marketCap * 100` is exactly 50 and the
source's comparison `cashRich > 50` is strict. -/
theorem scenario_cashRich_not_excellent :
    (screenStock scenarioStats Currency.USD).cashRich ≠ "◎" := by
  have h : (screenStock scenarioStats Currency.USD).cashRich = "〇" := by
    with_unfolding_all rfl
  rw [h]
  decide

/-- Claim C7 as amended: on the scenario snapshot with currency USD the
evaluator rates roe ◎, psr 〇, cashRich 〇 (not ◎: the 50 % boundary falls to
the 〇 tier because the comparison is strict), positiveCF ◎, per 〇, pbr ×,
roa ◎, equityRatio 〇 and eps ◎. -/
theorem scenario_ratings :
    (screenStock scenarioStats Currency.USD).roe = "◎"
    ∧ (screenStock scenarioStats Currency.USD).psr = "〇"
    ∧ (screenStock scenarioStats Currency.USD).cashRich = "〇"
    ∧ (screenStock scenarioStats Currency.USD).positiveCF = "◎"
    ∧ (screenStock scenarioStats Currency.USD).per = "〇"
    ∧ (screenStock scenarioStats Currency.USD).pbr = "×"
    ∧ (screenStock scenarioStats Currency.USD).roa = "◎"
    ∧ (screenStock scenarioStats Currency.USD).equityRatio = "〇"
    ∧ (screenStock scenarioStats Currency.USD).eps = "◎" := by
  refine ⟨?_, ?_, ?_, ?_, ?_, ?_, ?_, ?_, ?_⟩ <;> with_unfolding_all rfl

/-- Claim C10 (PSR division guard): on any snapshot whose `revenue` field is
0, the evaluator substitutes 0 for the PSR ratio instead of dividing, and the
`psr` factor is therefore rated at the best tier ◎ (0 < 1). -/
theorem psr_zero_revenue (stat : StockStats) (c : Currency)
    (h : stat.revenue = 0) : (screenStock stat c).psr = "◎" := by
  show psrRating stat = "◎"
  simp [psrRating, fourTier, h]

/-- Witness for claim C10: the scenario snapshot with zero revenue. -/
theorem psr_zero_revenue_witness :
    zeroRevenueStats.revenue = 0 ∧
      (screenStock zeroRevenueStats Currency.USD).psr = "◎" :=
  ⟨rfl, psr_zero_revenue zeroRevenueStats Currency.USD rfl⟩

lemma tenbagger_score_eq (av : ActualValues) (sr : List (String × String))
    (rg : Option RevenueGrowthInfo) (isJP : Bool) (ps : PriceStatsWindow) :
    (evaluateTenbaggerPotential av sr rg isJP ps).score =
      (growthBlock rg).1 + (marketCapBlock av.marketCap isJP).1 +
        (priceBlock ps).1 + (roeBlock av.roe).1 + (cfBlock av.positiveCF).1 +
        (perBlock av.per).1 := rfl

lemma tenbagger_details_eq (av : ActualValues) (sr : List (String × String))
    (rg : Option RevenueGrowthInfo) (isJP : Bool) (ps : PriceStatsWindow) :
    (evaluateTenbaggerPotential av sr rg isJP ps).details =
      (growthBlock rg).2 ++ (marketCapBlock av.marketCap isJP).2 ++
        (priceBlock ps).2 ++ (roeBlock av.roe).2 ++ (cfBlock av.positiveCF).2 ++
        (perBlock av.per).2 := rfl

lemma recentBlock_score_bounds (c r : ℚ) :
    -10 ≤ (recentBlock c r).1 ∧ (recentBlock c r).1 ≤ 10 := by
  unfold recentBlock
  split_ifs <;> simp

lemma cagrBlock_score_bounds (c : ℚ) :
    1 ≤ (cagrBlock c).1 ∧ (cagrBlock c).1 ≤ 30 := by
  unfold cagrBlock
  split_ifs <;> simp

lemma growthBlock_score_le (rg : Option RevenueGrowthInfo) :
    (growthBlock rg).1 ≤ 40 := by
  cases rg with
  | none => simp [growthBlock]
  | some g =>
      have h1 := cagrBlock_score_bounds g.cagr
      have h2 := recentBlock_score_bounds g.cagr g.recentGrowth
      simp only [growthBlock]
      omega

lemma marketCapBlock_score_le (mc : ℚ) (isJP : Bool) :
    (marketCapBlock mc isJP).1 ≤ 20 := by
  unfold marketCapBlock
  dsimp only
  split_ifs <;> simp

lemma priceBlock_score_le (ps : PriceStatsWindow) : (priceBlock ps).1 ≤ 15 := by
  unfold priceBlock
  dsimp only
  split_ifs <;> simp

lemma roeBlock_score_le (roe : ℚ) : (roeBlock roe).1 ≤ 10 := by
  unfold roeBlock
  split_ifs <;> simp

lemma cfBlock_score_le (cf : ℚ) : (cfBlock cf).1 ≤ 5 := by
  unfold cfBlock
  split_ifs <;> simp

lemma perBlock_score_le (per : ℚ) : (perBlock per).1 ≤ 10 := by
  unfold perBlock
  split_ifs <;> simp

/-- Claim C3 (score monotonicity sample): two composite-score inputs that
agree on every field, including the recent-growth figure, and differ only in
revenue CAGR 40 % versus 5 %, always give the CAGR-40 input the strictly
greater numeric score. -/
theorem composite_cagr_monotone (av : ActualValues)
    (sr : List (String × String)) (isJP : Bool) (ps : PriceStatsWindow)
    (recent : ℚ) :
    (evaluateTenbaggerPotential av sr (some ⟨5, recent⟩) isJP ps).score <
      (evaluateTenbaggerPotential av sr (some ⟨40, recent⟩) isJP ps).score := by
  rw [tenbagger_score_eq, tenbagger_score_eq]
  have h5 : (growthBlock (some ⟨5, recent⟩)).1 = 1 + (recentBlock 5 recent).1 := by
    have hc : (cagrBlock 5).1 = 1 := by norm_num [cagrBlock]
    simp only [growthBlock]
    omega
  have h40 : (growthBlock (some ⟨40, recent⟩)).1 =
      30 + (recentBlock 40 recent).1 := by
    have hc : (cagrBlock 40).1 = 30 := by norm_num [cagrBlock]
    simp only [growthBlock]
    omega
  have b5 := recentBlock_score_bounds 5 recent
  have b40 := recentBlock_score_bounds 40 recent
  omega

/-- Claim C9 (score range): the composite score never exceeds 100 (the sum
of the sub-factor maxima 30+10+20+15+10+5+10), and it is not clamped below at
0 — the all-penalty input `lowScoreValues` scores −19. -/
theorem composite_score_bounds :
    (∀ (av : ActualValues) (sr : List (String × String))
        (rg : Option RevenueGrowthInfo) (isJP : Bool) (ps : PriceStatsWindow),
        (evaluateTenbaggerPotential av sr rg isJP ps).score ≤ 100)
    ∧ (evaluateTenbaggerPotential lowScoreValues [] none false
        lowScoreWindow).score < 0 := by
  constructor
  · intro av sr rg isJP ps
    rw [tenbagger_score_eq]
    have h1 := growthBlock_score_le rg
    have h2 := marketCapBlock_score_le av.marketCap isJP
    have h3 := priceBlock_score_le ps
    have h4 := roeBlock_score_le av.roe
    have h5 := cfBlock_score_le av.positiveCF
    have h6 := perBlock_score_le av.per
    omega
  · have h : (evaluateTenbaggerPotential lowScoreValues [] none false
        lowScoreWindow).score = -19 := by with_unfolding_all rfl
    rw [h]
    decide

lemma cagrBlock_factors (c : ℚ) :
    (cagrBlock c).2.map Detail.factor = [SubFactor.revenueCAGR] := by
  unfold cagrBlock
  split_ifs <;> rfl

lemma recentBlock_factors (c r : ℚ) :
    (recentBlock c r).2.map Detail.factor = [SubFactor.recentGrowth] := by
  unfold recentBlock
  split_ifs <;> rfl

lemma growthBlock_factors (rg : Option RevenueGrowthInfo) :
    (growthBlock rg).2.map Detail.factor =
      (match rg with
        | some _ => [SubFactor.revenueCAGR, SubFactor.recentGrowth]
        | none => [SubFactor.missingGrowth]) := by
  cases rg with
  | none => rfl
  | some g =>
      simp only [growthBlock, List.map_append, cagrBlock_factors,
        recentBlock_factors]
      rfl

lemma marketCapBlock_factors (mc : ℚ) (isJP : Bool) :
    (marketCapBlock mc isJP).2.map Detail.factor = [SubFactor.marketCapSize] := by
  unfold marketCapBlock
  dsimp only
  split_ifs <;> rfl

lemma priceBlock_factors (ps : PriceStatsWindow) :
    (priceBlock ps).2.map Detail.factor = [SubFactor.pricePosition] := by
  unfold priceBlock
  dsimp only
  split_ifs <;> rfl

lemma roeBlock_factors (roe : ℚ) :
    (roeBlock roe).2.map Detail.factor = [SubFactor.roeProfit] := by
  unfold roeBlock
  split_ifs <;> rfl

lemma cfBlock_factors (cf : ℚ) :
    (cfBlock cf).2.map Detail.factor =
      (if cf ≥ 15 then [SubFactor.cfMarginProfit] else []) := by
  unfold cfBlock
  split_ifs <;> rfl

lemma perBlock_factors (per : ℚ) :
    (perBlock per).2.map Detail.factor = [SubFactor.perValuation] := by
  unfold perBlock
  split_ifs <;> rfl

lemma cagrBlock_tags (c : ℚ) :
    ∀ d ∈ (cagrBlock c).2, d.tag = "✅" ∨ d.tag = "〇" ∨ d.tag = "△" ∨
      d.tag = "×" := by
  unfold cagrBlock
  split_ifs <;> simp

lemma recentBlock_tags (c r : ℚ) :
    ∀ d ∈ (recentBlock c r).2, d.tag = "✅" ∨ d.tag = "〇" ∨ d.tag = "△" ∨
      d.tag = "×" := by
  unfold recentBlock
  split_ifs <;> simp

lemma growthBlock_tags (rg : Option RevenueGrowthInfo) :
    ∀ d ∈ (growthBlock rg).2, d.tag = "✅" ∨ d.tag = "〇" ∨ d.tag = "△" ∨
      d.tag = "×" := by
  cases rg with
  | none => simp [growthBlock]
  | some g =>
      intro d hd
      simp only [growthBlock, List.mem_append] at hd
      rcases hd with hd | hd
      · exact cagrBlock_tags g.cagr d hd
      · exact recentBlock_tags g.cagr g.recentGrowth d hd

lemma marketCapBlock_tags (mc : ℚ) (isJP : Bool) :
    ∀ d ∈ (marketCapBlock mc isJP).2, d.tag = "✅" ∨ d.tag = "〇" ∨
      d.tag = "△" ∨ d.tag = "×" := by
  unfold marketCapBlock
  dsimp only
  split_ifs <;> simp

lemma priceBlock_tags (ps : PriceStatsWindow) :
    ∀ d ∈ (priceBlock ps).2, d.tag = "✅" ∨ d.tag = "〇" ∨ d.tag = "△" ∨
      d.tag = "×" := by
  unfold priceBlock
  dsimp only
  split_ifs <;> simp

lemma roeBlock_tags (roe : ℚ) :
    ∀ d ∈ (roeBlock roe).2, d.tag = "✅" ∨ d.tag = "〇" ∨ d.tag = "△" ∨
      d.tag = "×" := by
  unfold roeBlock
  split_ifs <;> simp

lemma cfBlock_tags (cf : ℚ) :
    ∀ d ∈ (cfBlock cf).2, d.tag = "✅" ∨ d.tag = "〇" ∨ d.tag = "△" ∨
      d.tag = "×" := by
  unfold cfBlock
  split_ifs <;> simp

lemma perBlock_tags (per : ℚ) :
    ∀ d ∈ (perBlock per).2, d.tag = "✅" ∨ d.tag = "〇" ∨ d.tag = "△" ∨
      d.tag = "×" := by
  unfold perBlock
  split_ifs <;> simp

/-- Claim C8 as amended: the rationale list is an ordered append, one entry
per sub-factor in the fixed evaluation order (revenue CAGR, recent growth,
market cap, price position, ROE, CF margin, PER), each tagged with the tier
symbol of the branch that produced it — except that the CF-margin entry is
present only when the margin reaches its top tier (≥ 15 %), and a missing
growth record replaces the two growth entries by a single missing-data
entry. -/
theorem rationale_structure (av : ActualValues) (sr : List (String × String))
    (rg : Option RevenueGrowthInfo) (isJP : Bool) (ps : PriceStatsWindow) :
    (evaluateTenbaggerPotential av sr rg isJP ps).details.map Detail.factor =
      (match rg with
        | some _ => [SubFactor.revenueCAGR, SubFactor.recentGrowth]
        | none => [SubFactor.missingGrowth]) ++
      [SubFactor.marketCapSize, SubFactor.pricePosition, SubFactor.roeProfit] ++
      (if av.positiveCF ≥ 15 then [SubFactor.cfMarginProfit] else []) ++
      [SubFactor.perValuation]
    ∧ ∀ d ∈ (evaluateTenbaggerPotential av sr rg isJP ps).details,
        d.tag = "✅" ∨ d.tag = "〇" ∨ d.tag = "△" ∨ d.tag = "×" := by
  rw [tenbagger_details_eq]
  constructor
  · simp only [List.map_append, growthBlock_factors, marketCapBlock_factors,
      priceBlock_factors, roeBlock_factors, cfBlock_factors, perBlock_factors]
    cases rg <;> split_ifs <;> rfl
  · intro d hd
    simp only [List.mem_append] at hd
    rcases hd with ((((hd | hd) | hd) | hd) | hd) | hd
    · exact growthBlock_tags rg d hd
    · exact marketCapBlock_tags av.marketCap isJP d hd
    · exact priceBlock_tags ps d hd
    · exact roeBlock_tags av.roe d hd
    · exact cfBlock_tags av.positiveCF d hd
    · exact perBlock_tags av.per d hd

/-- Counterexample for claim C8: with growth data present but a CF margin of
0, the rationale has six entries, not one per sub-factor — the CF-margin
string is absent. -/
theorem rationale_missing_cf_entry :
    (evaluateTenbaggerPotential lowCfValues [] (some ⟨40, 50⟩) false
        lowCfWindow).details.map Detail.factor ≠
      [SubFactor.revenueCAGR, SubFactor.recentGrowth, SubFactor.marketCapSize,
       SubFactor.pricePosition, SubFactor.roeProfit, SubFactor.cfMarginProfit,
       SubFactor.perValuation] := by
  have h : (evaluateTenbaggerPotential lowCfValues [] (some ⟨40, 50⟩) false
      lowCfWindow).details.map Detail.factor =
      [SubFactor.revenueCAGR, SubFactor.recentGrowth, SubFactor.marketCapSize,
       SubFactor.pricePosition, SubFactor.roeProfit, SubFactor.perValuation] := by
    with_unfolding_all rfl
  rw [h]
  decide

lemma maxScanSpec :
    ∀ (rest : List Price) (a : Price),
      (rest.foldl (fun acc cur => if cur.price > acc.price then cur else acc) a)
          ∈ a :: rest
      ∧ (∀ p ∈ a :: rest,
          p.price ≤ (rest.foldl
            (fun acc cur => if cur.price > acc.price then cur else acc) a).price)
      ∧ (a :: rest).find? (fun p => p.price ==
            (rest.foldl (fun acc cur => if cur.price > acc.price then cur else acc)
              a).price) =
          some (rest.foldl
            (fun acc cur => if cur.price > acc.price then cur else acc) a)
      ∧ (rest.foldl (fun acc cur => if cur.price > acc.price then cur else acc)
            a).price = rest.foldl (fun m p => max m p.price) a.price := by
  intro rest
  induction rest with
  | nil =>
      intro a
      refine ⟨by simp, by simp, ?_, rfl⟩
      simp [List.find?]
  | cons cur rest ih =>
      intro a
      simp only [List.foldl_cons]
      by_cases h : cur.price > a.price
      · rw [if_pos h]
        obtain ⟨ih1, ih2, ih3, ih4⟩ := ih cur
        refine ⟨List.mem_cons_of_mem a ih1, ?_, ?_, ?_⟩
        · intro p hp
          rcases List.mem_cons.mp hp with rfl | hp
          · exact le_of_lt (lt_of_lt_of_le h (ih2 cur (List.mem_cons_self cur rest)))
          · exact ih2 p hp
        · rw [List.find?_cons_of_neg, ih3]
          have hlt : a.price <
              (rest.foldl (fun acc cur => if cur.price > acc.price then cur
                else acc) cur).price :=
            lt_of_lt_of_le h (ih2 cur (List.mem_cons_self cur rest))
          simp [beq_iff_eq]
          exact ne_of_lt hlt
        · rw [ih4]
          rw [max_eq_right (le_of_lt h)]
      · rw [if_neg h]
        obtain ⟨ih1, ih2, ih3, ih4⟩ := ih a
        have hcur : cur.price ≤ a.price := not_lt.mp h
        refine ⟨?_, ?_, ?_, ?_⟩
        · rcases List.mem_cons.mp ih1 with he | hm
          · rw [he]
            exact List.mem_cons_self a (cur :: rest)
          · exact List.mem_cons_of_mem a (List.mem_cons_of_mem cur hm)
        · intro p hp
          rcases List.mem_cons.mp hp with rfl | hp
          · exact ih2 p (List.mem_cons_self p rest)
          · rcases List.mem_cons.mp hp with rfl | hp
            · exact le_trans hcur (ih2 a (List.mem_cons_self a rest))
            · exact ih2 p (List.mem_cons_of_mem a hp)
        · by_cases ha : a.price =
              (rest.foldl (fun acc cur => if cur.price > acc.price then cur
                else acc) a).price
          · have hfa : (a :: rest).find? (fun p => p.price ==
                (rest.foldl (fun acc cur => if cur.price > acc.price then cur
                  else acc) a).price) = some a :=
              List.find?_cons_of_pos _ (by simp [beq_iff_eq, ha])
            have heq : some a = some (rest.foldl
                (fun acc cur => if cur.price > acc.price then cur else acc) a) := by
              rw [← hfa, ih3]
            rw [List.find?_cons_of_pos _ (by simp [beq_iff_eq, ha]), heq]
          · have hfa : (rest.foldl (fun acc cur => if cur.price > acc.price
                then cur else acc) a) ∈ a :: rest := ih1
            have hrest : rest.find? (fun p => p.price ==
                (rest.foldl (fun acc cur => if cur.price > acc.price then cur
                  else acc) a).price) = some (rest.foldl
                (fun acc cur => if cur.price > acc.price then cur else acc) a) := by
              rw [List.find?_cons_of_neg] at ih3
              · exact ih3
              · simp [beq_iff_eq]
                exact ha
            have hcne : ¬ (cur.price = (rest.foldl
                (fun acc cur => if cur.price > acc.price then cur else acc)
                  a).price) := by
              intro hc
              exact ha (le_antisymm (ih2 a (List.mem_cons_self a rest))
                (hc ▸ hcur))
            rw [List.find?_cons_of_neg, List.find?_cons_of_neg, hrest]
            · simp [beq_iff_eq]
              exact hcne
            · simp [beq_iff_eq]
              exact ha
        · rw [ih4, max_eq_left hcur]

lemma minScanSpec :
    ∀ (rest : List Price) (a : Price),
      (rest.foldl (fun acc cur => if cur.price < acc.price then cur else acc) a)
          ∈ a :: rest
      ∧ (∀ p ∈ a :: rest,
          (rest.foldl
            (fun acc cur => if cur.price < acc.price then cur else acc) a).price
            ≤ p.price)
      ∧ (a :: rest).find? (fun p => p.price ==
            (rest.foldl (fun acc cur => if cur.price < acc.price then cur else acc)
              a).price) =
          some (rest.foldl
            (fun acc cur => if cur.price < acc.price then cur else acc) a)
      ∧ (rest.foldl (fun acc cur => if cur.price < acc.price then cur else acc)
            a).price = rest.foldl (fun m p => min m p.price) a.price := by
  intro rest
  induction rest with
  | nil =>
      intro a
      refine ⟨by simp, by simp, ?_, rfl⟩
      simp [List.find?]
  | cons cur rest ih =>
      intro a
      simp only [List.foldl_cons]
      by_cases h : cur.price < a.price
      · rw [if_pos h]
        obtain ⟨ih1, ih2, ih3, ih4⟩ := ih cur
        refine ⟨List.mem_cons_of_mem a ih1, ?_, ?_, ?_⟩
        · intro p hp
          rcases List.mem_cons.mp hp with rfl | hp
          · exact le_of_lt (lt_of_le_of_lt (ih2 cur (List.mem_cons_self cur rest)) h)
          · exact ih2 p hp
        · rw [List.find?_cons_of_neg, ih3]
          have hlt : (rest.foldl (fun acc cur => if cur.price < acc.price then cur
                else acc) cur).price < a.price :=
            lt_of_le_of_lt (ih2 cur (List.mem_cons_self cur rest)) h
          simp [beq_iff_eq]
          exact ne_of_gt hlt
        · rw [ih4]
          rw [min_eq_right (le_of_lt h)]
      · rw [if_neg h]
        obtain ⟨ih1, ih2, ih3, ih4⟩ := ih a
        have hcur : a.price ≤ cur.price := not_lt.mp h
        refine ⟨?_, ?_, ?_, ?_⟩
        · rcases List.mem_cons.mp ih1 with he | hm
          · rw [he]
            exact List.mem_cons_self a (cur :: rest)
          · exact List.mem_cons_of_mem a (List.mem_cons_of_mem cur hm)
        · intro p hp
          rcases List.mem_cons.mp hp with rfl | hp
          · exact ih2 p (List.mem_cons_self p rest)
          · rcases List.mem_cons.mp hp with rfl | hp
            · exact le_trans (ih2 a (List.mem_cons_self a rest)) hcur
            · exact ih2 p (List.mem_cons_of_mem a hp)
        · by_cases ha : a.price =
              (rest.foldl (fun acc cur => if cur.price < acc.price then cur
                else acc) a).price
          · have hfa : (a :: rest).find? (fun p => p.price ==
                (rest.foldl (fun acc cur => if cur.price < acc.price then cur
                  else acc) a).price) = some a :=
              List.find?_cons_of_pos _ (by simp [beq_iff_eq, ha])
            have heq : some a = some (rest.foldl
                (fun acc cur => if cur.price < acc.price then cur else acc) a) := by
              rw [← hfa, ih3]
            rw [List.find?_cons_of_pos _ (by simp [beq_iff_eq, ha]), heq]
          · have hrest : rest.find? (fun p => p.price ==
                (rest.foldl (fun acc cur => if cur.price < acc.price then cur
                  else acc) a).price) = some (rest.foldl
                (fun acc cur => if cur.price < acc.price then cur else acc) a) := by
              rw [List.find?_cons_of_neg] at ih3
              · exact ih3
              · simp [beq_iff_eq]
                exact ha
            have hcne : ¬ (cur.price = (rest.foldl
                (fun acc cur => if cur.price < acc.price then cur else acc)
                  a).price) := by
              intro hc
              exact ha (le_antisymm (hc ▸ hcur)
                (ih2 a (List.mem_cons_self a rest)))
            rw [List.find?_cons_of_neg, List.find?_cons_of_neg, hrest]
            · simp [beq_iff_eq]
              exact hcne
            · simp [beq_iff_eq]
              exact ha
        · rw [ih4, min_eq_left hcur]

lemma calculateStats_cons (p0 : Price) (rest : List Price) :
    calculateStats (p0 :: rest) = some
      { maxPrice := rest.foldl (fun m p => max m p.price) p0.price
        maxPriceDate := (rest.foldl
          (fun acc cur => if cur.price > acc.price then cur else acc) p0).date
        minPrice := rest.foldl (fun m p => min m p.price) p0.price
        minPriceDate := (rest.foldl
          (fun acc cur => if cur.price < acc.price then cur else acc) p0).date
        priceRange := rest.foldl (fun m p => max m p.price) p0.price -
          rest.foldl (fun m p => min m p.price) p0.price
        priceRangePercent := (rest.foldl (fun m p => max m p.price) p0.price -
          rest.foldl (fun m p => min m p.price) p0.price) /
          rest.foldl (fun m p => max m p.price) p0.price * 100 } := rfl

/-- Claim C6 (statistics summarizer): null on empty input; on a non-empty
input, `maxPrice`/`minPrice` bound and are attained by the price fields, the
associated dates come from the first-encountered point attaining each
extreme, `priceRange = maxPrice − minPrice` and
`priceRangePercent = priceRange / maxPrice * 100`; a single-point input
yields range 0 and percent 0. -/
theorem stats_summary :
    calculateStats [] = none
    ∧ (∀ (p0 : Price) (rest : List Price), ∃ s,
        calculateStats (p0 :: rest) = some s
        ∧ (∀ p ∈ p0 :: rest, p.price ≤ s.maxPrice)
        ∧ (∀ p ∈ p0 :: rest, s.minPrice ≤ p.price)
        ∧ (∃ pm ∈ p0 :: rest,
            (p0 :: rest).find? (fun p => p.price == s.maxPrice) = some pm
            ∧ s.maxPriceDate = pm.date ∧ pm.price = s.maxPrice)
        ∧ (∃ pn ∈ p0 :: rest,
            (p0 :: rest).find? (fun p => p.price == s.minPrice) = some pn
            ∧ s.minPriceDate = pn.date ∧ pn.price = s.minPrice)
        ∧ s.priceRange = s.maxPrice - s.minPrice
        ∧ s.priceRangePercent = s.priceRange / s.maxPrice * 100)
    ∧ (∀ p : Price, calculateStats [p] = some
        { maxPrice := p.price, maxPriceDate := p.date, minPrice := p.price,
          minPriceDate := p.date, priceRange := 0, priceRangePercent := 0 }) := by
  refine ⟨rfl, ?_, ?_⟩
  · intro p0 rest
    obtain ⟨m1, m2, m3, m4⟩ := maxScanSpec rest p0
    obtain ⟨n1, n2, n3, n4⟩ := minScanSpec rest p0
    refine ⟨_, calculateStats_cons p0 rest, ?_, ?_, ?_, ?_, rfl, rfl⟩
    · dsimp only
      intro p hp
      exact m4 ▸ m2 p hp
    · dsimp only
      intro p hp
      exact n4 ▸ n2 p hp
    · dsimp only
      rw [← m4]
      exact ⟨_, m1, m3, rfl, rfl⟩
    · dsimp only
      rw [← n4]
      exact ⟨_, n1, n3, rfl, rfl⟩
  · intro p
    simp [calculateStats_cons]

lemma insertGroup_keys {K : Type} [DecidableEq K] (k0 : K) (p : Price) :
    ∀ acc : List (K × List Price),
      (insertGroup k0 p acc).map Prod.fst =
        if k0 ∈ acc.map Prod.fst then acc.map Prod.fst
        else acc.map Prod.fst ++ [k0] := by
  intro acc
  induction acc with
  | nil => simp [insertGroup]
  | cons hd tl ih =>
      obtain ⟨k1, g1⟩ := hd
      by_cases h : k1 = k0
      · subst h
        simp [insertGroup]
      · simp only [insertGroup, if_neg h, List.map_cons, List.mem_cons, ih]
        have hne : ¬ k0 = k1 := fun he => h he.symm
        by_cases hmem : k0 ∈ tl.map Prod.fst
        · simp [hmem, hne]
        · simp [hmem, hne]

lemma insertGroup_forward {K : Type} [DecidableEq K] (k0 : K) (p : Price) :
    ∀ (acc : List (K × List Price)) (F : K → List Price),
      (acc.map Prod.fst).Nodup →
      (∀ k g, (k, g) ∈ acc → g = F k) →
      (k0 ∉ acc.map Prod.fst → F k0 = []) →
      ∀ k g, (k, g) ∈ insertGroup k0 p acc →
        g = if k = k0 then F k0 ++ [p] else F k := by
  intro acc
  induction acc with
  | nil =>
      intro F _ _ hF0 k g hmem
      simp only [insertGroup, List.mem_singleton, Prod.mk.injEq] at hmem
      rw [hmem.2, if_pos hmem.1, hF0 (by simp)]
      simp
  | cons hd tl ih =>
      intro F hnd hFacc hF0 k g hmem
      obtain ⟨k1, g1⟩ := hd
      simp only [List.map_cons, List.nodup_cons] at hnd
      obtain ⟨hk1, hndtl⟩ := hnd
      by_cases h : k1 = k0
      · rw [insertGroup, if_pos h] at hmem
        rcases List.mem_cons.mp hmem with heq | hmem'
        · rw [Prod.mk.injEq] at heq
          obtain ⟨hk, hg⟩ := heq
          have hg1 : g1 = F k0 := by
            rw [← h]
            exact hFacc k1 g1 (List.mem_cons_self _ _)
          rw [hg, if_pos (hk.trans h), hg1]
        · have hkmem : k ∈ tl.map Prod.fst :=
            List.mem_map_of_mem Prod.fst hmem'
          have hkne : ¬ k = k0 := by
            intro he
            apply hk1
            rw [h, ← he]
            exact hkmem
          rw [if_neg hkne]
          exact hFacc k g (List.mem_cons_of_mem _ hmem')
      · rw [insertGroup, if_neg h] at hmem
        rcases List.mem_cons.mp hmem with heq | hmem'
        · rw [Prod.mk.injEq] at heq
          obtain ⟨hk, hg⟩ := heq
          have hkne : ¬ k = k0 := fun he => h (hk ▸ he)
          rw [hg, if_neg hkne, hk]
          exact hFacc k1 g1 (List.mem_cons_self _ _)
        · exact ih F hndtl
            (fun k' g' hm => hFacc k' g' (List.mem_cons_of_mem _ hm))
            (fun hnm => hF0 (by
              simp only [List.map_cons, List.mem_cons]
              rintro (he | hm)
              · exact h he.symm
              · exact hnm hm))
            k g hmem'

lemma groupByKey_append {K : Type} [DecidableEq K] (key : Price → K)
    (ps : List Price) (q : Price) :
    groupByKey key (ps ++ [q]) = insertGroup (key q) q (groupByKey key ps) := by
  simp [groupByKey, List.foldl_append]

lemma groupByKey_spec {K : Type} [DecidableEq K] (key : Price → K) :
    ∀ ps : List Price,
      ((groupByKey key ps).map Prod.fst).Nodup
      ∧ (∀ k, k ∈ (groupByKey key ps).map Prod.fst ↔ k ∈ ps.map key)
      ∧ (∀ k g, (k, g) ∈ groupByKey key ps →
          g = ps.filter (fun p => key p = k)) := by
  intro ps
  induction ps using List.reverseRecOn with
  | nil => exact ⟨List.nodup_nil, by simp [groupByKey], by simp [groupByKey]⟩
  | append_singleton ps q ih =>
      obtain ⟨ihN, ihK, ihF⟩ := ih
      rw [groupByKey_append]
      have hkeys := insertGroup_keys (key q) q (groupByKey key ps)
      refine ⟨?_, ?_, ?_⟩
      · rw [hkeys]
        by_cases hmem : key q ∈ (groupByKey key ps).map Prod.fst
        · simpa [hmem] using ihN
        · simp only [if_neg hmem]
          simp only [List.nodup_append, List.nodup_singleton]
          exact ⟨ihN, by simpa using hmem⟩
      · intro k
        rw [hkeys]
        by_cases hmem : key q ∈ (groupByKey key ps).map Prod.fst
        · rw [if_pos hmem]
          simp only [List.map_append, List.map_cons, List.map_nil,
            List.mem_append, List.mem_singleton, ihK]
          constructor
          · exact fun h => Or.inl h
          · rintro (h | rfl)
            · exact h
            · exact (ihK (key q)).mp hmem
        · rw [if_neg hmem]
          simp only [List.map_append, List.map_cons, List.map_nil,
            List.mem_append, List.mem_singleton, ihK]
      · intro k g hmem
        have hfwd := insertGroup_forward (key q) q (groupByKey key ps)
          (fun k' => ps.filter (fun p => key p = k')) ihN
          (fun k' g' hm => ihF k' g' hm)
          (fun hnm => by
            rw [List.filter_eq_nil_iff]
            intro a ha hkey
            exact hnm ((ihK (key q)).mpr
              (by
                simp only [List.mem_map]
                exact ⟨a, ha, of_decide_eq_true hkey⟩)))
          k g hmem
        rw [hfwd, List.filter_append]
        by_cases hk : k = key q
        · subst hk
          simp
        · have hne : ¬ key q = k := fun he => hk he.symm
          simp [hne, hk]

lemma sortByDate_perm (g : List Price) : (sortByDate g).Perm g :=
  List.mergeSort_perm g _

lemma sortByDate_pairwise (g : List Price) :
    (sortByDate g).Pairwise
      (fun a b : Price => a.date.dayNumber ≤ b.date.dayNumber) := by
  have h : (sortByDate g).Pairwise
      (fun a b : Price =>
        decide (a.date.dayNumber ≤ b.date.dayNumber) = true) := by
    unfold sortByDate
    apply List.sorted_mergeSort
    · intro a b c hab hbc
      simp only [decide_eq_true_eq] at *
      omega
    · intro a b
      simp only [Bool.or_eq_true, decide_eq_true_eq]
      omega
  exact h.imp (fun hab => of_decide_eq_true hab)

lemma pairwise_getLast_max :
    ∀ (l : List Price),
      l.Pairwise (fun a b : Price => a.date.dayNumber ≤ b.date.dayNumber) →
      ∀ (h : l ≠ []) (q : Price), q ∈ l →
        q.date.dayNumber ≤ (l.getLast h).date.dayNumber := by
  intro l
  induction l with
  | nil => intro _ h; exact absurd rfl h
  | cons a t ih =>
      intro hp h q hq
      rcases List.pairwise_cons.mp hp with ⟨ha, hpt⟩
      cases t with
      | nil =>
          simp only [List.mem_singleton] at hq
          subst hq
          exact le_refl _
      | cons b t' =>
          rw [List.getLast_cons (List.cons_ne_nil b t')]
          rcases List.mem_cons.mp hq with rfl | hq'
          · exact ha _ (List.getLast_mem (List.cons_ne_nil b t'))
          · exact ih hpt (List.cons_ne_nil b t') q hq'

lemma getLast?_sortByDate_spec (g : List Price) (p : Price)
    (h : (sortByDate g).getLast? = some p) :
    p ∈ g ∧ ∀ q ∈ g, q.date.dayNumber ≤ p.date.dayNumber := by
  have hne : sortByDate g ≠ [] := by
    intro h0
    rw [h0] at h
    simp at h
  have hgl : (sortByDate g).getLast hne = p := by
    rw [List.getLast?_eq_getLast _ hne] at h
    exact Option.some.inj h
  constructor
  · rw [← hgl]
    exact (sortByDate_perm g).mem_iff.mp (List.getLast_mem hne)
  · intro q hq
    rw [← hgl]
    exact pairwise_getLast_max (sortByDate g) (sortByDate_pairwise g) hne q
      ((sortByDate_perm g).mem_iff.mpr hq)

lemma sortByDate_getLast?_isSome (g : List Price) (hne : g ≠ []) :
    ∃ p, (sortByDate g).getLast? = some p := by
  have hs : sortByDate g ≠ [] := by
    intro h0
    have hp := sortByDate_perm g
    rw [h0] at hp
    exact hne hp.nil_eq.symm
  exact ⟨(sortByDate g).getLast hs, List.getLast?_eq_getLast _ hs⟩

lemma filterMap_last_keys {K : Type} (key : Price → K) :
    ∀ (L : List (K × List Price)),
      (∀ k g, (k, g) ∈ L → g ≠ [] ∧ ∀ p ∈ g, key p = k) →
      (L.filterMap (fun kg => (sortByDate kg.2).getLast?)).map key =
        L.map Prod.fst := by
  intro L
  induction L with
  | nil => intro _; rfl
  | cons hd tl ih =>
      intro hL
      obtain ⟨k, g⟩ := hd
      obtain ⟨hne, hkey⟩ := hL k g (List.mem_cons_self _ _)
      obtain ⟨p, hp⟩ := sortByDate_getLast?_isSome g hne
      have hpg : p ∈ g := (getLast?_sortByDate_spec g p hp).1
      rw [List.filterMap_cons]
      simp only [hp]
      rw [List.map_cons, List.map_cons]
      rw [ih (fun k' g' hm => hL k' g' (List.mem_cons_of_mem _ hm))]
      rw [hkey p hpg]

lemma mem_filterMap_last {K : Type} (L : List (K × List Price)) (p' : Price)
    (h : p' ∈ L.filterMap (fun kg => (sortByDate kg.2).getLast?)) :
    ∃ k g, (k, g) ∈ L ∧ p' ∈ g ∧
      ∀ q ∈ g, q.date.dayNumber ≤ p'.date.dayNumber := by
  rw [List.mem_filterMap] at h
  obtain ⟨kg, hkg, hlast⟩ := h
  obtain ⟨hmem, hmax⟩ := getLast?_sortByDate_spec kg.2 p' hlast
  exact ⟨kg.1, kg.2, by simpa using hkg, hmem, hmax⟩

lemma resample_spec {K : Type} [DecidableEq K] (key : Price → K)
    (ps : List Price) :
    (((groupByKey key ps).filterMap
        (fun kg => (sortByDate kg.2).getLast?)).map key).Nodup
    ∧ (∀ k, k ∈ ((groupByKey key ps).filterMap
          (fun kg => (sortByDate kg.2).getLast?)).map key ↔ k ∈ ps.map key)
    ∧ (∀ p' ∈ (groupByKey key ps).filterMap
          (fun kg => (sortByDate kg.2).getLast?),
        p' ∈ ps ∧ ∀ q ∈ ps, key q = key p' →
          q.date.dayNumber ≤ p'.date.dayNumber)
    ∧ ((groupByKey key ps).filterMap
        (fun kg => (sortByDate kg.2).getLast?)).length ≤ ps.length := by
  obtain ⟨hN, hK, hF⟩ := groupByKey_spec key ps
  have hinv : ∀ k g, (k, g) ∈ groupByKey key ps → g ≠ [] ∧ ∀ p ∈ g, key p = k := by
    intro k g hm
    have hg := hF k g hm
    have hk : k ∈ ps.map key :=
      (hK k).mp (List.mem_map_of_mem Prod.fst hm)
    constructor
    · rw [hg]
      rw [List.mem_map] at hk
      obtain ⟨a, ha, hak⟩ := hk
      intro hnil
      have : a ∈ ps.filter (fun p => key p = k) :=
        List.mem_filter.mpr ⟨ha, decide_eq_true hak⟩
      rw [hnil] at this
      exact List.not_mem_nil a this
    · intro p hp
      rw [hg] at hp
      exact of_decide_eq_true (List.mem_filter.mp hp).2
  have hkeys := filterMap_last_keys key (groupByKey key ps) hinv
  refine ⟨?_, ?_, ?_, ?_⟩
  · rw [hkeys]
    exact hN
  · intro k
    rw [hkeys]
    exact hK k
  · intro p' hp'
    obtain ⟨k, g, hm, hpg, hmax⟩ := mem_filterMap_last _ p' hp'
    have hg := hF k g hm
    have hpkey : key p' = k := (hinv k g hm).2 p' hpg
    constructor
    · rw [hg] at hpg
      exact (List.mem_filter.mp hpg).1
    · intro q hq hqk
      apply hmax
      rw [hg]
      exact List.mem_filter.mpr ⟨hq, decide_eq_true (hqk.trans hpkey)⟩
  · have hlen : ((groupByKey key ps).filterMap
        (fun kg => (sortByDate kg.2).getLast?)).length =
        ((groupByKey key ps).map Prod.fst).length := by
      rw [← hkeys, List.length_map]
    rw [hlen]
    have hsub : (groupByKey key ps).map Prod.fst ⊆ ps.map key := by
      intro k hk
      exact (hK k).mp hk
    calc ((groupByKey key ps).map Prod.fst).length
        = ((groupByKey key ps).map Prod.fst).toFinset.card :=
          (List.toFinset_card_of_nodup hN).symm
      _ ≤ (ps.map key).toFinset.card := by
          apply Finset.card_le_card
          intro x hx
          rw [List.mem_toFinset] at hx ⊢
          exact hsub hx
      _ ≤ (ps.map key).length := List.toFinset_card_le _
      _ = ps.length := List.length_map ps key

/-- Claim C4 (resampler buckets): for either granularity, the output has
exactly one point per occupied bucket (its bucket keys are duplicate-free and
range over exactly the input's bucket keys), each output point is an input
point that is chronologically latest in its bucket, the output is never
longer than the input, and the empty input yields the empty output; the week
key of a date is the Monday on or before it (key day number Monday-valued,
at most 6 days back). -/
theorem resample_bucket_properties (ps : List Price) :
    (((toWeekly ps).map (fun p => getWeekKey p.date)).Nodup
      ∧ (∀ k, k ∈ (toWeekly ps).map (fun p => getWeekKey p.date) ↔
          k ∈ ps.map (fun p => getWeekKey p.date))
      ∧ (∀ p' ∈ toWeekly ps, p' ∈ ps ∧ ∀ q ∈ ps,
          getWeekKey q.date = getWeekKey p'.date →
            q.date.dayNumber ≤ p'.date.dayNumber)
      ∧ (toWeekly ps).length ≤ ps.length)
    ∧ (((toMonthly ps).map (fun p => getMonthKey p.date)).Nodup
      ∧ (∀ k, k ∈ (toMonthly ps).map (fun p => getMonthKey p.date) ↔
          k ∈ ps.map (fun p => getMonthKey p.date))
      ∧ (∀ p' ∈ toMonthly ps, p' ∈ ps ∧ ∀ q ∈ ps,
          getMonthKey q.date = getMonthKey p'.date →
            q.date.dayNumber ≤ p'.date.dayNumber)
      ∧ (toMonthly ps).length ≤ ps.length)
    ∧ toWeekly [] = [] ∧ toMonthly [] = []
    ∧ (∀ dt : Date, 7 ≤ dt.dayNumber →
        jsDayOfNumber (getWeekKey dt) = 1 ∧ getWeekKey dt ≤ dt.dayNumber ∧
          dt.dayNumber - getWeekKey dt ≤ 6) := by
  refine ⟨resample_spec (fun p => getWeekKey p.date) ps,
    resample_spec (fun p => getMonthKey p.date) ps, rfl, rfl, ?_⟩
  intro dt h
  unfold getWeekKey Date.jsDay jsDayOfNumber
  omega

/-- Witness for claim C4: the week key of Wednesday 2024-01-10 is a Monday
at most six days earlier. -/
theorem resample_bucket_properties_witness :
    7 ≤ (Date.mk 2024 1 10).dayNumber ∧
      (jsDayOfNumber (getWeekKey (Date.mk 2024 1 10)) = 1 ∧
        getWeekKey (Date.mk 2024 1 10) ≤ (Date.mk 2024 1 10).dayNumber ∧
        (Date.mk 2024 1 10).dayNumber - getWeekKey (Date.mk 2024 1 10) ≤ 6) :=
  ⟨by decide,
    (resample_bucket_properties []).2.2.2.2 (Date.mk 2024 1 10) (by decide)⟩

lemma insertGroup_append_of_not_mem {K : Type} [DecidableEq K] (k0 : K)
    (p : Price) :
    ∀ acc : List (K × List Price), k0 ∉ acc.map Prod.fst →
      insertGroup k0 p acc = acc ++ [(k0, [p])] := by
  intro acc
  induction acc with
  | nil => intro _; rfl
  | cons hd tl ih =>
      intro h
      obtain ⟨k1, g1⟩ := hd
      simp only [List.map_cons, List.mem_cons] at h
      push_neg at h
      obtain ⟨h1, h2⟩ := h
      rw [insertGroup, if_neg (fun he => h1 he.symm), ih h2]
      rfl

lemma groupByKey_of_nodup_keys {K : Type} [DecidableEq K] (key : Price → K) :
    ∀ ps : List Price, (ps.map key).Nodup →
      groupByKey key ps = ps.map (fun p => (key p, [p])) := by
  intro ps
  induction ps using List.reverseRecOn with
  | nil => intro _; rfl
  | append_singleton ps q ih =>
      intro hnd
      rw [List.map_append] at hnd
      obtain ⟨hndps, _, hdisj⟩ := List.nodup_append.mp hnd
      have hqnot : key q ∉ ps.map key := fun hm => hdisj hm (by simp)
      rw [groupByKey_append, ih hndps]
      have hkeys : (ps.map (fun p => (key p, [p]))).map Prod.fst = ps.map key := by
        simp [List.map_map, Function.comp]
      rw [insertGroup_append_of_not_mem _ _ _ (by rw [hkeys]; exact hqnot)]
      simp

/-- Claim C5 (resampling idempotence): applying the month resampler to its
own output returns the output unchanged (here even as lists, which is
stronger than the set-level comparison the claim asks for). -/
theorem toMonthly_idempotent (ps : List Price) :
    toMonthly (toMonthly ps) = toMonthly ps := by
  have hN : ((toMonthly ps).map (fun p => getMonthKey p.date)).Nodup :=
    (resample_spec (fun p => getMonthKey p.date) ps).1
  show (groupByKey (fun p => getMonthKey p.date) (toMonthly ps)).filterMap
      (fun kg => (sortByDate kg.2).getLast?) = toMonthly ps
  rw [groupByKey_of_nodup_keys _ _ hN, List.filterMap_map]
  have hfn : ((fun kg : ((Nat × Nat) × List Price) =>
      (sortByDate kg.2).getLast?) ∘ (fun p : Price =>
        (getMonthKey p.date, [p]))) = some := by
    funext p
    simp [Function.comp, sortByDate]
  rw [hfn, List.filterMap_some]

/-- Witness for claim C1: on the all-zero snapshot the `roe` entry of the
factor record is present and carries one of the four tiers. -/
theorem screening_totality_witness :
    ("roe", (screenStock totalityStats Currency.JPY).roe) ∈
        screeningRecord (screenStock totalityStats Currency.JPY)
      ∧ (("roe", (screenStock totalityStats Currency.JPY).roe).2 = "◎"
        ∨ ("roe", (screenStock totalityStats Currency.JPY).roe).2 = "〇"
        ∨ ("roe", (screenStock totalityStats Currency.JPY).roe).2 = "△"
        ∨ ("roe", (screenStock totalityStats Currency.JPY).roe).2 = "×") :=
  ⟨by simp [screeningRecord],
    (screening_totality totalityStats Currency.JPY).2 _
      (by simp [screeningRecord])⟩

/-- Witness for claim C6: the summary of a single-point series is bounded by
that point's price on both sides. -/
theorem stats_summary_witness :
    ∃ s, calculateStats [statsPoint] = some s ∧ statsPoint.price ≤ s.maxPrice
      ∧ s.minPrice ≤ statsPoint.price := by
  obtain ⟨s, hs, hmax, hmin, _⟩ := stats_summary.2.1 statsPoint []
  exact ⟨s, hs, hmax statsPoint (List.mem_cons_self _ _),
    hmin statsPoint (List.mem_cons_self _ _)⟩

/-- Witness for claim C8: on an input with no growth record the missing-data
entry is in the rationale and carries a tier tag. -/
theorem rationale_structure_witness :
    (⟨"×", SubFactor.missingGrowth, 0⟩ : Detail) ∈
        (evaluateTenbaggerPotential rationaleValues [] none false
          rationaleWindow).details
      ∧ ((⟨"×", SubFactor.missingGrowth, 0⟩ : Detail).tag = "✅"
        ∨ (⟨"×", SubFactor.missingGrowth, 0⟩ : Detail).tag = "〇"
        ∨ (⟨"×", SubFactor.missingGrowth, 0⟩ : Detail).tag = "△"
        ∨ (⟨"×", SubFactor.missingGrowth, 0⟩ : Detail).tag = "×") := by
  have hd : (evaluateTenbaggerPotential rationaleValues [] none false
      rationaleWindow).details =
      [⟨"×", SubFactor.missingGrowth, 0⟩, ⟨"△", SubFactor.marketCapSize, 0⟩,
       ⟨"✅", SubFactor.pricePosition, 1⟩, ⟨"△", SubFactor.roeProfit, 0⟩,
       ⟨"✅", SubFactor.cfMarginProfit, 20⟩,
       ⟨"✅", SubFactor.perValuation, 10⟩] := by
    with_unfolding_all rfl
  have hmem : (⟨"×", SubFactor.missingGrowth, 0⟩ : Detail) ∈
      (evaluateTenbaggerPotential rationaleValues [] none false
        rationaleWindow).details := by
    rw [hd]
    exact List.mem_cons_self _ _
  exact ⟨hmem, (rationale_structure rationaleValues [] none false
    rationaleWindow).2 _ hmem⟩
